import Mathlib

/-!
Verification of the save-for-later conversation registry tool
(`scripts/later.py`) against its natural-language specification.

The Python source is shallowly embedded: pure fragments become Lean
functions over `List`/`String`/`Int`/`ℚ`; JSON values read from line
oriented logs become an explicit `JVal` inductive; functions that can
raise an uncaught Python exception return `Except PyErr _`; functions
whose exceptions are caught by the enclosing loop are modelled with
explicit result constructors.  File-system access is factored out: the
content of a file is passed as a list of per-line parse results.
-/

/-- Uncaught Python exception kinds that the modelled code can raise. -/
inductive PyErr where
  | keyError
  | attrError
  | valueError
deriving DecidableEq, Repr

/-- ASCII whitespace stripped by Python `str.strip()` (unicode spaces are
not modelled; no input in this development contains them). -/
def isPySpace (c : Char) : Bool :=
  c == ' ' || c == '\t' || c == '\n' || c == '\r' || c == '\x0b' || c == '\x0c'

/-- Models Python `str.strip()`. -/
def pyStrip (s : String) : String :=
  ⟨((s.data.dropWhile isPySpace).reverse.dropWhile isPySpace).reverse⟩

/-- Models Python slicing `s[:n]` (by code points). -/
def strTake (s : String) (n : Nat) : String :=
  ⟨s.data.take n⟩

/-- `leadsWith p l` holds when the character list `p` is an initial run of
`l`; used to model Python `str.startswith` and substring search. -/
def leadsWith : List Char → List Char → Bool
  | [], _ => true
  | _ :: _, [] => false
  | p :: ps, c :: cs => p == c && leadsWith ps cs

/-- Models Python `s.startswith(p)`. -/
def pyStartsWith (s p : String) : Bool :=
  leadsWith p.data s.data

/-- A conversation entry of the registry file (§3 of the spec, the dict
built by `cmd_save`). -/
structure ConvEntry where
  id : Int
  sessionId : String
  project : String
  description : String
  firstPrompt : Option String
  savedAt : String
  completedAt : Option String
  status : String
deriving DecidableEq, Repr

/-- Models `next_id`: `1` on an empty registry, otherwise
`max(c["id"] for c in conversations) + 1` (Python `max` over a nonempty
iterable is a left fold of `max` started at the first element). -/
def next_id (convs : List ConvEntry) : Int :=
  match convs with
  | [] => 1
  | c :: rest => (rest.foldl (fun m e => max m e.id) c.id) + 1

/-- Models the character class `[^a-zA-Z0-9-]` of `cwd_to_project_dir`
(negated): `true` exactly on the characters the regex leaves unchanged. -/
def isProjectChar (c : Char) : Bool :=
  ('a' ≤ c && c ≤ 'z') || ('A' ≤ c && c ≤ 'Z') || ('0' ≤ c && c ≤ '9') || c == '-'

/-- Models `cwd_to_project_dir`: `re.sub(r"[^a-zA-Z0-9-]", "-", cwd)`,
a per-character substitution. -/
def cwd_to_project_dir (cwd : String) : String :=
  ⟨cwd.data.map (fun c => if isProjectChar c then c else '-')⟩

/-- Message printed by `cmd_done` / `cmd_remove`. -/
inductive DoneMsg where
  | marked (id : Int) (desc : String)
  | removed (id : Int) (desc : String)
  | notFound (id : Int)
deriving DecidableEq, Repr

/-- The for-loop of `cmd_done`: update the first entry whose `id` matches,
returning `none` when no entry matches. -/
def doneScan (i : Int) (now : String) : List ConvEntry → Option (List ConvEntry × String)
  | [] => none
  | c :: rest =>
    if c.id == i then
      some ({ c with status := "done", completedAt := some now } :: rest, c.description)
    else
      (doneScan i now rest).map (fun p => (c :: p.1, p.2))

/-- Models `cmd_done`.  Result: (registry contents, whether
`save_registry` was called, exit code, printed message). -/
def cmd_done (convs : List ConvEntry) (i : Int) (now : String) :
    List ConvEntry × Bool × Nat × DoneMsg :=
  match doneScan i now convs with
  | some (l, d) => (l, true, 0, .marked i d)
  | none => (convs, false, 1, .notFound i)

/-- The for-loop of `cmd_remove`: update the first entry whose `id`
matches, returning `none` when no entry matches. -/
def removeScan (i : Int) : List ConvEntry → Option (List ConvEntry × String)
  | [] => none
  | c :: rest =>
    if c.id == i then
      some ({ c with status := "removed" } :: rest, c.description)
    else
      (removeScan i rest).map (fun p => (c :: p.1, p.2))

/-- Models `cmd_remove`.  Result: (registry contents, whether
`save_registry` was called, exit code, printed message). -/
def cmd_remove (convs : List ConvEntry) (i : Int) :
    List ConvEntry × Bool × Nat × DoneMsg :=
  match removeScan i convs with
  | some (l, d) => (l, true, 0, .removed i d)
  | none => (convs, false, 1, .notFound i)

/-- Python truthiness of an optional string (`None` and `""` are falsy),
used for `if args.description:` and the `or`-chains of `cmd_save`. -/
def pyTruthy : Option String → Bool
  | none => false
  | some s => !(s == "")

/-- Models the Python expression `a or b or dflt` over optional strings
with Python truthiness. -/
def pyOr (a b : Option String) (dflt : String) : String :=
  if pyTruthy a then a.getD "" else if pyTruthy b then b.getD "" else dflt

/-- Outcome printed by `cmd_save`. -/
inductive SaveAction where
  | alreadySaved (id : Int) (desc : String)
  | reactivated (id : Int) (desc : String)
  | savedNew (id : Int) (desc : String)
deriving DecidableEq, Repr

/-- Result of `cmd_save`: registry contents afterwards, whether
`save_registry` was called, the process exit code, and the printed
outcome. -/
structure SaveOut where
  conversations : List ConvEntry
  wrote : Bool
  exitCode : Nat
  action : SaveAction
deriving DecidableEq, Repr

/-- The in-place mutation `cmd_save` performs on a non-active matching
entry: status reset to active, new saved timestamp, description replaced
only when a truthy description argument was given. -/
def reactivateEntry (c : ConvEntry) (descr : Option String) (now : String) : ConvEntry :=
  { c with
    status := "active"
    savedAt := now
    description := if pyTruthy descr then descr.getD "" else c.description }

/-- The for-loop of `cmd_save` over existing entries: acts on the first
entry whose `sessionId` matches (already-active short circuit, else
in-place reactivation); `none` when no entry matches. -/
def saveScan (sid : String) (descr : Option String) (now : String) :
    List ConvEntry → Option (List ConvEntry × SaveAction × Bool)
  | [] => none
  | c :: rest =>
    if c.sessionId == sid then
      if c.status == "active" then
        some (c :: rest, .alreadySaved c.id c.description, false)
      else
        some (reactivateEntry c descr now :: rest,
          .reactivated (reactivateEntry c descr now).id (reactivateEntry c descr now).description,
          true)
    else
      match saveScan sid descr now rest with
      | some (rest', a, w) => some (c :: rest', a, w)
      | none => none

/-- Models `cmd_save`.  `firstPrompt` stands for the value of
`get_first_prompt(args.session_id)`. -/
def cmd_save (convs : List ConvEntry) (sid proj : String)
    (descr firstPrompt : Option String) (now : String) : SaveOut :=
  match saveScan sid descr now convs with
  | some (convs', a, w) => ⟨convs', w, 0, a⟩
  | none =>
    let desc := pyOr descr firstPrompt "No description"
    let entry : ConvEntry :=
      ⟨next_id convs, sid, proj, desc, firstPrompt, now, none, "active"⟩
    ⟨convs ++ [entry], true, 0, .savedNew entry.id desc⟩

/-- A parsed JSON value, the result of a successful `json.loads` on one
log line.  A whole line that fails to parse is modelled as `none` at the
use sites. -/
inductive JVal where
  | jnull
  | jbool (b : Bool)
  | jnum (q : ℚ)
  | jstr (s : String)
  | jarr (elems : List JVal)
  | jobj (fields : List (String × JVal))
deriving Repr

/-- Field lookup in a parsed JSON object (dict keys are unique). -/
def lookupField : List (String × JVal) → String → Option JVal
  | [], _ => none
  | (k, v) :: rest, key => if k == key then some v else lookupField rest key

/-- Models `v.get(k)` on a value known to be a dict; `none` models the
Python `None` default. -/
def olookup (v : JVal) (k : String) : Option JVal :=
  match v with
  | .jobj fs => lookupField fs k
  | _ => none

/-- Models `v.get(k, dflt)` on a value known to be a dict. -/
def olookupD (v : JVal) (k : String) (dflt : JVal) : JVal :=
  (olookup v k).getD dflt

/-- Models `isinstance(v, dict)`. -/
def isObjB : JVal → Bool
  | .jobj _ => true
  | _ => false

/-- Models Python `==` between a JSON value and a string. -/
def pyEqStr (v : JVal) (s : String) : Bool :=
  match v with
  | .jstr t => t == s
  | _ => false

/-- The line loop of `find_session_id_for_cwd`: `best` is the running
session id; an unparseable line (`none`) is skipped by the caught
`JSONDecodeError`; a parseable non-dict line raises `AttributeError`
from `entry.get`, which nothing catches. -/
def findSessionGo (cwd : String) :
    Option JVal → List (Option JVal) → Except PyErr (Option JVal)
  | best, [] => .ok best
  | best, line :: rest =>
    match line with
    | none => findSessionGo cwd best rest
    | some v =>
      match v with
      | .jobj _ =>
        if pyEqStr (olookupD v "project" (.jstr "")) cwd then
          findSessionGo cwd (olookup v "sessionId") rest
        else
          findSessionGo cwd best rest
      | _ => .error .attrError

/-- Models `find_session_id_for_cwd`: `history` is `none` when
`~/.claude/history.jsonl` does not exist, otherwise the per-line parse
results of the file. -/
def find_session_id_for_cwd (cwd : String) (history : Option (List (Option JVal))) :
    Except PyErr (Option JVal) :=
  match history with
  | none => .ok none
  | some lines => findSessionGo cwd none lines

/-- Specification-side view for C7: the parseable history lines whose
project field (with the code's empty-string default for a missing
field) equals the target directory, in file order. -/
def historyMatches (cwd : String) : List (Option JVal) → List JVal
  | [] => []
  | none :: rest => historyMatches cwd rest
  | some v :: rest =>
    if pyEqStr (olookupD v "project" (.jstr "")) cwd then
      v :: historyMatches cwd rest
    else
      historyMatches cwd rest

/-- The literal opening tag of the regex in `_extract_user_text`. -/
def openTag : List Char := "<system-reminder>".data

/-- The literal closing tag of the regex in `_extract_user_text`. -/
def closeTag : List Char := "</system-reminder>".data

/-- Index of the first occurrence of `pat` in a character list, if any. -/
def firstOcc? (pat : List Char) : List Char → Option Nat
  | [] => if leadsWith pat [] then some 0 else none
  | c :: t => if leadsWith pat (c :: t) then some 0 else (firstOcc? pat t).map (fun i => i + 1)

/-- Fuel-indexed engine of the substitution
`re.sub(r"<system-reminder>.*?</system-reminder>", "", text, re.DOTALL)`:
the leftmost match starts at the first occurrence of the open tag that is
followed by a close tag, the non-greedy body ends at the earliest such
close tag, and scanning resumes after the removed match.  The fuel is
always at least the list length at the call sites, which suffices. -/
def stripSRGo : Nat → List Char → List Char
  | 0, l => l
  | f + 1, l =>
    match firstOcc? openTag l with
    | none => l
    | some i =>
      match firstOcc? closeTag (l.drop (i + openTag.length)) with
      | none => l
      | some j =>
        l.take i ++ stripSRGo f ((l.drop (i + openTag.length)).drop (j + closeTag.length))

/-- Models the `re.sub` call of `_extract_user_text` on a string. -/
def stripSystemReminders (s : String) : String :=
  ⟨stripSRGo s.data.length s.data⟩

/-- The list-content loop of `_extract_user_text`: blocks whose stripped
text is empty or starts with a command marker are skipped; the first
surviving text block decides the result.  `c["text"]` on a block without
that key raises `KeyError` (caught by the callers' line loops); `.strip()`
on a non-string value raises an uncaught `AttributeError`. -/
def extractFromBlocks : List JVal → Except PyErr (Option String)
  | [] => .ok none
  | c :: rest =>
    if isObjB c && pyEqStr (olookupD c "type" .jnull) "text" then
      match olookup c "text" with
      | none => .error .keyError
      | some (.jstr s) =>
        if pyStrip s == "" then extractFromBlocks rest
        else if pyStartsWith (pyStrip s) "<local-command" then extractFromBlocks rest
        else if pyStartsWith (pyStrip s) "<command-" then extractFromBlocks rest
        else
          .ok (if pyStrip (stripSystemReminders (pyStrip s)) == "" then none
               else some (pyStrip (stripSystemReminders (pyStrip s))))
      | some _ => .error .attrError
    else extractFromBlocks rest

/-- Models `_extract_user_text`. -/
def extract_user_text (d : JVal) : Except PyErr (Option String) :=
  match d with
  | .jobj _ =>
    let msg := olookupD d "message" (.jobj [])
    let content :=
      match msg with
      | .jobj _ => olookupD msg "content" (.jstr "")
      | _ => olookupD d "content" (.jstr "")
    match content with
    | .jstr c =>
      if pyStrip c == "" then .ok none
      else if pyStartsWith (pyStrip c) "<local-command" then .ok none
      else if pyStartsWith (pyStrip c) "<command-" then .ok none
      else
        .ok (if pyStrip (stripSystemReminders (pyStrip c)) == "" then none
             else some (pyStrip (stripSystemReminders (pyStrip c))))
    | .jarr cs => extractFromBlocks cs
    | _ => .ok none
  | _ => .error .attrError

/-- Mutable state of the tail-scanning loop of `extract_session_context`. -/
structure TailState where
  lastUser : Option String
  lastAssistant : Option String
  recentTools : List JVal
  lastTool : Option JVal
deriving Repr

/-- Outcome of processing one assistant content block: continue with the
updated state, abort the line on a caught `KeyError` keeping the partial
state, or raise an uncaught `AttributeError`. -/
inductive BlockRes where
  | cont (st : TailState)
  | abortLine (st : TailState)
  | fatal

/-- The mutation of the `tool_use` branch: record `c.get("name", "")` as
the last tool and append it to the recent-tools list. -/
def toolUpd (st : TailState) (c : JVal) : TailState :=
  { st with
    lastTool := some (olookupD c "name" (.jstr ""))
    recentTools := st.recentTools ++ [olookupD c "name" (.jstr "")] }

/-- One assistant content block of the tail loop: the `text` branch reads
`c["text"]` (KeyError aborts the line, a non-string raises) and records
the stripped text if nonempty; the `tool_use` branch records the tool
name. -/
def blockStep (st : TailState) (c : JVal) : BlockRes :=
  if isObjB c && pyEqStr (olookupD c "type" .jnull) "text" then
    match olookup c "text" with
    | none => .abortLine st
    | some (.jstr s) =>
      .cont (if pyStrip s == "" then st else { st with lastAssistant := some (pyStrip s) })
    | some _ => .fatal
  else if isObjB c && pyEqStr (olookupD c "type" .jnull) "tool_use" then
    .cont (toolUpd st c)
  else
    .cont st

/-- The `for c in content` loop over assistant content blocks. -/
def blocksLoop : TailState → List JVal → Except Unit TailState
  | st, [] => .ok st
  | st, c :: rest =>
    match blockStep st c with
    | .cont st2 => blocksLoop st2 rest
    | .abortLine st2 => .ok st2
    | .fatal => .error ()

/-- One line of the tail loop of `extract_session_context`: an
unparseable line is skipped; a parseable non-dict raises from `d.get`;
a user line may update `last_user`; an assistant line runs the content
loop. -/
def tailLine (st : TailState) (line : Option JVal) : Except Unit TailState :=
  match line with
  | none => .ok st
  | some d =>
    match d with
    | .jobj _ =>
      if pyEqStr (olookupD d "type" (.jstr "")) "user" then
        match extract_user_text d with
        | .error .attrError => .error ()
        | .error _ => .ok st
        | .ok none => .ok st
        | .ok (some text) =>
          .ok (if text == "" then st else { st with lastUser := some (strTake text 200) })
      else if pyEqStr (olookupD d "type" (.jstr "")) "assistant" then
        match
          (match olookupD d "message" (.jobj []) with
            | .jobj fs => olookupD (.jobj fs) "content" (.jarr [])
            | _ => .jarr []) with
        | .jarr blocks => blocksLoop st blocks
        | _ => .ok st
      else .ok st
    | _ => .error ()

/-- The `for line in lines[-max_tail_lines:]` loop. -/
def tailLoop : TailState → List (Option JVal) → Except Unit TailState
  | st, [] => .ok st
  | st, l :: rest =>
    match tailLine st l with
    | .ok st2 => tailLoop st2 rest
    | .error e => .error e

/-- The `for line in lines[:30]` loop that finds the first user prompt
(`if first_user: break` at the top of each iteration). -/
def firstUserLoop : Option String → List (Option JVal) → Except Unit (Option String)
  | fu, [] => .ok fu
  | fu, line :: rest =>
    if pyTruthy fu then .ok fu
    else
      match line with
      | none => firstUserLoop fu rest
      | some d =>
        match d with
        | .jobj _ =>
          if pyEqStr (olookupD d "type" .jnull) "user" then
            match extract_user_text d with
            | .error .attrError => .error ()
            | .error _ => firstUserLoop fu rest
            | .ok none => firstUserLoop fu rest
            | .ok (some text) =>
              firstUserLoop (if text == "" then fu else some (strTake text 200)) rest
          else firstUserLoop fu rest
        | _ => .error ()

/-- The dict returned by `extract_session_context`. -/
structure SessionContext where
  firstPrompt : Option String
  lastUserMessage : Option String
  lastAssistantResponse : Option String
  recentTools : List JVal
  lastTool : Option JVal
deriving Repr

/-- Models `extract_session_context` on the per-line parse results of a
readable session file (`lines`); Python `lines[-n:]` is `drop (length - n)`
and `recent_tools[-5:]` is `drop (length - 5)`. -/
def extract_session_context (lines : List (Option JVal)) (maxTailLines : Nat := 80) :
    Except Unit SessionContext :=
  match firstUserLoop none (lines.take 30) with
  | .error e => .error e
  | .ok fu =>
    match tailLoop ⟨none, none, [], none⟩ (lines.drop (lines.length - maxTailLines)) with
    | .error e => .error e
    | .ok st =>
      .ok { firstPrompt := fu
            lastUserMessage := st.lastUser
            lastAssistantResponse :=
              match st.lastAssistant with
              | some s => if s == "" then none else some (strTake s 400)
              | none => none
            recentTools := st.recentTools.drop (st.recentTools.length - 5)
            lastTool := st.lastTool }

/-- Models Python `s.endswith(p)`. -/
def pyEndsWith (s p : String) : Bool :=
  leadsWith p.data.reverse s.data.reverse

/-- Accumulator-based engine of Python `line.split()`. -/
def pySplitAux : List Char → List Char → List String
  | [], acc => if acc.isEmpty then [] else [⟨acc.reverse⟩]
  | c :: t, acc =>
    if isPySpace c then
      if acc.isEmpty then pySplitAux t [] else ⟨acc.reverse⟩ :: pySplitAux t []
    else pySplitAux t (c :: acc)

/-- Models Python `line.split()`: split on whitespace runs, no empty
parts. -/
def pySplit (s : String) : List String :=
  pySplitAux s.data []

/-- Accumulator-based engine of Python `s.split(sep)` for a one-character
separator (empty parts kept, as Python does). -/
def pySplitOnAux (sep : Char) : List Char → List Char → List (List Char)
  | [], acc => [acc.reverse]
  | c :: t, acc =>
    if c == sep then acc.reverse :: pySplitOnAux sep t [] else pySplitOnAux sep t (c :: acc)

/-- Models Python `s.split(ch)` for a one-character separator. -/
def pySplitOn (s : String) (sep : Char) : List (List Char) :=
  pySplitOnAux sep s.data []

/-- Accumulating decimal digit parser (`none` on a non-digit). -/
def digitsAcc : Nat → List Char → Option Nat
  | acc, [] => some acc
  | acc, c :: t => if c.isDigit then digitsAcc (acc * 10 + (c.toNat - '0'.toNat)) t else none

/-- Value of a nonempty all-digit character list. -/
def digitsToNat? : List Char → Option Nat
  | [] => none
  | c :: t => digitsAcc 0 (c :: t)

/-- Models Python `float()` on the decimal literals `ps aux` emits in its
%CPU column: an optional sign and `digits[.digits]`, `digits.`, or
`.digits` (exponent, infinity, nan, underscore and unicode forms are
never produced by `ps` and are not modelled). -/
def pythonFloat? (s : String) : Option ℚ :=
  let body : String :=
    if pyStartsWith s "-" || pyStartsWith s "+" then ⟨s.data.drop 1⟩ else s
  let mag : Option ℚ :=
    match pySplitOn body '.' with
    | [a] => (digitsToNat? a).map (fun n => mkRat n 1)
    | [a, b] =>
      if a.isEmpty && b.isEmpty then none
      else
        match (if a.isEmpty then some 0 else digitsToNat? a),
              (if b.isEmpty then some 0 else digitsToNat? b) with
        | some av, some bv =>
          some (mkRat (av * 10 ^ b.length + bv) (10 ^ b.length))
        | _, _ => none
    | _ => none
  if pyStartsWith s "-" then mag.map (fun q => -q) else mag

/-- Models Python `int()` on the optional-sign digit strings `ps` puts in
its PID column. -/
def pyInt? (s : String) : Option Int :=
  match s.data with
  | '-' :: t => (digitsToNat? t).map (fun n => -(n : Int))
  | '+' :: t => (digitsToNat? t).map (fun n => (n : Int))
  | t => (digitsToNat? t).map (fun n => (n : Int))

/-- One line of the pid-collection loop of `get_active_claude_sessions`
(its `ps aux` filter): `some (pidString, cpu, started)` when the row is
kept, `none` when the row is skipped.  A row with fewer than 11 columns
is skipped; the command must be `claude` or end in `/claude`; the tty
must start with `s0`; the state flags must contain `+`; a CPU field that
fails to parse counts as `0.0`; a CPU value below `1.0` is skipped. -/
def psLineCandidate (line : String) : Option (String × ℚ × String) :=
  if (pySplit line).length < 11 then none
  else
    if pyEndsWith ((pySplit line).getD 10 "") "/claude"
        || ((pySplit line).getD 10 "") == "claude" then
      if pyStartsWith ((pySplit line).getD 6 "") "s0"
          && ((pySplit line).getD 7 "").data.contains '+' then
        if (pythonFloat? ((pySplit line).getD 2 "")).getD 0 < 1 then none
        else some ((pySplit line).getD 1 "",
          (pythonFloat? ((pySplit line).getD 2 "")).getD 0,
          (pySplit line).getD 8 "")
      else none
    else none

/-- The pid-collection loop of `get_active_claude_sessions` over the
split lines of the `ps aux` output: kept rows have their PID parsed by
`int(pid)`, whose `ValueError` nothing catches. -/
def get_claude_pids : List String → Except PyErr (List (Int × ℚ × String))
  | [] => .ok []
  | line :: rest =>
    match psLineCandidate line with
    | none => get_claude_pids rest
    | some (pidStr, cpu, started) =>
      match pyInt? pidStr with
      | none => .error .valueError
      | some pid =>
        match get_claude_pids rest with
        | .ok l => .ok ((pid, cpu, started) :: l)
        | .error e => .error e

/-- Models lines 201-220 of `get_active_claude_sessions`: split the
stripped `ps aux` output into lines and collect the candidate pids. -/
def claude_pids_of_ps (stdout : String) : Except PyErr (List (Int × ℚ × String)) :=
  get_claude_pids ((pySplitOn (pyStrip stdout) '\n').map (fun l => ⟨l⟩))

/- ### Helper lemmas -/

lemma leadsWith_append (p t : List Char) : leadsWith p (p ++ t) = true := by
  induction p with
  | nil => rfl
  | cons a ps ih => simp [leadsWith, ih]

lemma leadsWith_ex (p : List Char) : ∀ l, leadsWith p l = true → ∃ t, l = p ++ t := by
  induction p with
  | nil => intro l _; exact ⟨l, rfl⟩
  | cons a ps ih =>
    intro l h
    cases l with
    | nil => simp [leadsWith] at h
    | cons c cs =>
      simp only [leadsWith, Bool.and_eq_true, beq_iff_eq] at h
      obtain ⟨rfl, h2⟩ := h
      obtain ⟨t, rfl⟩ := ih cs h2
      exact ⟨t, rfl⟩

lemma leadsWith_length (p : List Char) : ∀ l, leadsWith p l = true → p.length ≤ l.length := by
  intro l h
  obtain ⟨t, rfl⟩ := leadsWith_ex p l h
  simp

lemma firstOcc_none_iff (pat : List Char) :
    ∀ l, firstOcc? pat l = none ↔ ∀ k, leadsWith pat (l.drop k) = false := by
  intro l
  induction l with
  | nil =>
    cases hlw : leadsWith pat [] with
    | true =>
      constructor
      · intro h; rw [firstOcc?, if_pos hlw] at h; exact absurd h (by simp)
      · intro h; exact absurd (h 0) (by simp [hlw])
    | false =>
      constructor
      · intro _ k; simpa using hlw
      · intro _; rw [firstOcc?, if_neg (by simp [hlw])]
  | cons c t ih =>
    cases hlw : leadsWith pat (c :: t) with
    | true =>
      constructor
      · intro h; rw [firstOcc?, if_pos hlw] at h; exact absurd h (by simp)
      · intro h; exact absurd (h 0) (by simp [hlw])
    | false =>
      constructor
      · intro h k
        rw [firstOcc?, if_neg (by simp [hlw]), Option.map_eq_none'] at h
        cases k with
        | zero => simpa using hlw
        | succ m => exact (ih.mp h) m
      · intro h
        rw [firstOcc?, if_neg (by simp [hlw]), Option.map_eq_none']
        exact ih.mpr (fun k => h (k + 1))

lemma firstOcc_intro (pat : List Char) :
    ∀ (l : List Char) (n : Nat), leadsWith pat (l.drop n) = true →
    (∀ k < n, leadsWith pat (l.drop k) = false) → firstOcc? pat l = some n := by
  intro l
  induction l with
  | nil =>
    intro n hl hk
    simp only [List.drop_nil] at hl
    cases n with
    | zero => rw [firstOcc?, if_pos hl]
    | succ m =>
      have := hk 0 (Nat.succ_pos m)
      simp only [List.drop_nil] at this
      rw [this] at hl
      exact absurd hl (by simp)
  | cons c t ih =>
    intro n hl hk
    cases n with
    | zero => rw [firstOcc?, if_pos (by simpa using hl)]
    | succ m =>
      have h0 : leadsWith pat (c :: t) = false := by simpa using hk 0 (Nat.succ_pos m)
      rw [firstOcc?, if_neg (by simp [h0])]
      have hrec : firstOcc? pat t = some m := by
        refine ih m (by simpa using hl) ?_
        intro k hkm
        simpa using hk (k + 1) (by omega)
      rw [hrec]
      rfl

lemma firstOcc_some_leads (pat : List Char) :
    ∀ (l : List Char) (n : Nat), firstOcc? pat l = some n →
    leadsWith pat (l.drop n) = true := by
  intro l
  induction l with
  | nil =>
    intro n h
    cases hlw : leadsWith pat [] with
    | true =>
      rw [firstOcc?, if_pos hlw] at h
      obtain rfl : 0 = n := by simpa using h
      simpa using hlw
    | false =>
      rw [firstOcc?, if_neg (by simp [hlw])] at h
      exact absurd h (by simp)
  | cons c t ih =>
    intro n h
    cases hlw : leadsWith pat (c :: t) with
    | true =>
      rw [firstOcc?, if_pos hlw] at h
      obtain rfl : 0 = n := by simpa using h
      simpa using hlw
    | false =>
      rw [firstOcc?, if_neg (by simp [hlw])] at h
      cases hr : firstOcc? pat t with
      | none => rw [hr] at h; exact absurd h (by simp)
      | some m =>
        rw [hr] at h
        obtain rfl : m + 1 = n := by simpa using h
        simpa using ih m hr

lemma leadsWith_of_append_eq (p : List Char) :
    ∀ (a x y : List Char), p ++ x = a ++ y → p.length ≤ a.length →
    leadsWith p a = true := by
  induction p with
  | nil => intro a x y _ _; rfl
  | cons q qs ih =>
    intro a x y heq hlen
    cases a with
    | nil => simp at hlen
    | cons b bs =>
      simp only [List.cons_append, List.cons.injEq] at heq
      obtain ⟨rfl, heq2⟩ := heq
      simp only [List.length_cons, Nat.add_le_add_iff_right] at hlen
      simp [leadsWith, ih bs x y heq2 hlen]

lemma firstOcc_append_self (c0 : Char) (pt pre rest : List Char)
    (hpre : firstOcc? (c0 :: pt) pre = none)
    (hc0 : c0 ∉ pt) :
    firstOcc? (c0 :: pt) (pre ++ ((c0 :: pt) ++ rest)) = some pre.length := by
  apply firstOcc_intro
  · rw [List.drop_left]
    exact leadsWith_append _ _
  · intro k hk
    cases hb : leadsWith (c0 :: pt) ((pre ++ ((c0 :: pt) ++ rest)).drop k) with
    | false => rfl
    | true =>
      exfalso
      obtain ⟨t, ht⟩ := leadsWith_ex _ _ hb
      have hdrop : (pre ++ ((c0 :: pt) ++ rest)).drop k
          = pre.drop k ++ ((c0 :: pt) ++ rest) := by
        rw [List.drop_append_eq_append_drop, Nat.sub_eq_zero_of_le (le_of_lt hk)]
        rfl
      rw [hdrop] at ht
      by_cases hcase : k + (c0 :: pt).length ≤ pre.length
      · -- the putative occurrence lies wholly inside pre
        have hlw : leadsWith (c0 :: pt) (pre.drop k) = true := by
          refine leadsWith_of_append_eq (c0 :: pt) (pre.drop k) t ((c0 :: pt) ++ rest)
            ht.symm ?_
          rw [List.length_drop]
          omega
        exact absurd hlw (by simp [(firstOcc_none_iff (c0 :: pt) pre).mp hpre k])
      · -- the putative occurrence straddles the seam: forces c0 inside pt
        have hu : leadsWith (pre.drop k) (c0 :: pt) = true := by
          refine leadsWith_of_append_eq (pre.drop k) (c0 :: pt) ((c0 :: pt) ++ rest) t
            ht ?_
          rw [List.length_drop]
          omega
        obtain ⟨w, hw⟩ := leadsWith_ex _ _ hu
        have hZ : (c0 :: pt) ++ rest = w ++ t := by
          have h2 := ht
          nth_rewrite 2 [hw] at h2
          rw [List.append_assoc] at h2
          exact List.append_cancel_left h2
        have hwlen : 0 < w.length := by
          have h1 : (c0 :: pt).length = (pre.drop k).length + w.length := by
            rw [hw, List.length_append]
          rw [List.length_drop] at h1
          simp only [List.length_cons] at *
          omega
        cases w with
        | nil => simp at hwlen
        | cons w0 w' =>
          have hw0 : w0 = c0 := by
            have := hZ
            simp only [List.cons_append, List.cons.injEq] at this
            exact this.1.symm
          have hulen : 0 < (pre.drop k).length := by
            rw [List.length_drop]; omega
          cases hu' : pre.drop k with
          | nil => rw [hu'] at hulen; simp at hulen
          | cons u0 us =>
            rw [hu'] at hw
            simp only [List.cons_append, List.cons.injEq] at hw
            have hpt : pt = us ++ (w0 :: w') := hw.2
            have : w0 ∈ pt := by
              rw [hpt]
              exact List.mem_append_right us (List.mem_cons_self w0 w')
            rw [hw0] at this
            exact hc0 this

lemma findSessionGo_spec (cwd : String) (lines : List (Option JVal)) :
    ∀ best, ((lines.filterMap id).all isObjB = true) →
    findSessionGo cwd best lines
      = .ok (match (historyMatches cwd lines).getLast? with
          | some m => olookup m "sessionId"
          | none => best) := by
  induction lines with
  | nil => intro best _; rfl
  | cons line rest ih =>
    intro best h
    cases line with
    | none => exact ih best h
    | some v =>
      have hv : isObjB v = true := by
        have := List.all_eq_true.mp h v
        exact this (List.mem_cons_self v (rest.filterMap id))
      have h' : (rest.filterMap id).all isObjB = true := by
        rw [List.all_eq_true]
        intro w hw
        exact List.all_eq_true.mp h w (List.mem_cons_of_mem v hw)
      cases v with
      | jobj fs =>
        by_cases hm : pyEqStr (olookupD (.jobj fs) "project" (.jstr "")) cwd
        · have hh : historyMatches cwd (some (JVal.jobj fs) :: rest)
              = .jobj fs :: historyMatches cwd rest := by
            show (if pyEqStr (olookupD (.jobj fs) "project" (.jstr "")) cwd then
                JVal.jobj fs :: historyMatches cwd rest
              else historyMatches cwd rest) = _
            rw [if_pos hm]
          have hg : findSessionGo cwd best (some (JVal.jobj fs) :: rest)
              = findSessionGo cwd (olookup (.jobj fs) "sessionId") rest := by
            show (if pyEqStr (olookupD (.jobj fs) "project" (.jstr "")) cwd then
                findSessionGo cwd (olookup (.jobj fs) "sessionId") rest
              else findSessionGo cwd best rest) = _
            rw [if_pos hm]
          rw [hg, hh, ih (olookup (.jobj fs) "sessionId") h']
          cases hl : historyMatches cwd rest with
          | nil => rfl
          | cons x xs =>
            cases hgl : (x :: xs).getLast? with
            | none => simp at hgl
            | some m => rw [List.getLast?_cons_cons, hgl]
        · have hh : historyMatches cwd (some (JVal.jobj fs) :: rest)
              = historyMatches cwd rest := by
            show (if pyEqStr (olookupD (.jobj fs) "project" (.jstr "")) cwd then
                JVal.jobj fs :: historyMatches cwd rest
              else historyMatches cwd rest) = _
            rw [if_neg hm]
          have hg : findSessionGo cwd best (some (JVal.jobj fs) :: rest)
              = findSessionGo cwd best rest := by
            show (if pyEqStr (olookupD (.jobj fs) "project" (.jstr "")) cwd then
                findSessionGo cwd (olookup (.jobj fs) "sessionId") rest
              else findSessionGo cwd best rest) = _
            rw [if_neg hm]
          rw [hg, hh]
          exact ih best h'
      | jnull => simp [isObjB] at hv
      | jbool b => simp [isObjB] at hv
      | jnum q => simp [isObjB] at hv
      | jstr s => simp [isObjB] at hv
      | jarr l => simp [isObjB] at hv

lemma saveScan_none (sid : String) (descr : Option String) (now : String)
    (convs : List ConvEntry) (h : ∀ c ∈ convs, c.sessionId ≠ sid) :
    saveScan sid descr now convs = none := by
  induction convs with
  | nil => rfl
  | cons c t ih =>
    have hc : c.sessionId ≠ sid := h c (List.mem_cons_self c t)
    have ht : ∀ e ∈ t, e.sessionId ≠ sid := fun e he => h e (List.mem_cons_of_mem c he)
    simp only [saveScan, beq_iff_eq, if_neg hc, ih ht]

lemma saveScan_append (sid : String) (descr : Option String) (now : String)
    (pre rest : List ConvEntry) (h : ∀ e ∈ pre, e.sessionId ≠ sid) :
    saveScan sid descr now (pre ++ rest)
      = (saveScan sid descr now rest).map (fun p => (pre ++ p.1, p.2)) := by
  induction pre with
  | nil =>
    simp only [List.nil_append]
    cases saveScan sid descr now rest with
    | none => rfl
    | some p => rfl
  | cons c t ih =>
    have hc : c.sessionId ≠ sid := h c (List.mem_cons_self c t)
    have ht : ∀ e ∈ t, e.sessionId ≠ sid := fun e he => h e (List.mem_cons_of_mem c he)
    simp only [List.cons_append, saveScan, beq_iff_eq, if_neg hc, List.append_eq, ih ht]
    cases saveScan sid descr now rest with
    | none => rfl
    | some p => rfl

lemma getD_map_of_lt (l : List Char) (f : Char → Char) (d : Char) :
    ∀ i, i < l.length → (l.map f).getD i d = f (l.getD i d) := by
  induction l with
  | nil => intro i h; simp at h
  | cons c t ih =>
    intro i h
    cases i with
    | zero => simp [List.getD]
    | succ j =>
      simp only [List.map_cons, List.getD_cons_succ]
      exact ih j (by simpa using h)

lemma foldlMax_init_le (l : List Int) : ∀ a : Int, a ≤ l.foldl max a := by
  induction l with
  | nil => intro a; simp
  | cons x t ih =>
    intro a
    simpa using le_trans (le_max_left a x) (ih (max a x))

lemma foldlMax_mem_le (l : List Int) : ∀ a x, x ∈ l → x ≤ l.foldl max a := by
  induction l with
  | nil => intro a x hx; simp at hx
  | cons y t ih =>
    intro a x hx
    rcases List.mem_cons.mp hx with h | h
    · subst h
      simpa using le_trans (le_max_right a x) (foldlMax_init_le t (max a x))
    · simpa using ih (max a y) x h

lemma foldlMax_eq_or_mem (l : List Int) : ∀ a, l.foldl max a = a ∨ l.foldl max a ∈ l := by
  induction l with
  | nil => intro a; left; rfl
  | cons y t ih =>
    intro a
    rcases ih (max a y) with h | h
    · simp only [List.foldl_cons] at *
      rw [h]
      rcases max_choice a y with h2 | h2
      · left; exact h2
      · right; rw [h2]; exact List.mem_cons_self y t
    · right
      simp only [List.foldl_cons]
      exact List.mem_cons_of_mem y h

lemma doneScan_none (i : Int) (now : String) (convs : List ConvEntry)
    (h : ∀ c ∈ convs, c.id ≠ i) : doneScan i now convs = none := by
  induction convs with
  | nil => rfl
  | cons c t ih =>
    have hc : c.id ≠ i := h c (List.mem_cons_self c t)
    have ht : ∀ e ∈ t, e.id ≠ i := fun e he => h e (List.mem_cons_of_mem c he)
    simp [doneScan, hc, ih ht]

lemma removeScan_none (i : Int) (convs : List ConvEntry)
    (h : ∀ c ∈ convs, c.id ≠ i) : removeScan i convs = none := by
  induction convs with
  | nil => rfl
  | cons c t ih =>
    have hc : c.id ≠ i := h c (List.mem_cons_self c t)
    have ht : ∀ e ∈ t, e.id ≠ i := fun e he => h e (List.mem_cons_of_mem c he)
    simp [removeScan, hc, ih ht]

/- ### Claim C4 -/

/-- C4: `next_id` returns one greater than the maximum id over all
conversation entries, and returns 1 when the conversations list is
empty. -/
theorem C4_next_id : ∀ convs : List ConvEntry,
    (convs = [] → next_id convs = 1)
    ∧ (∀ c ∈ convs, c.id < next_id convs)
    ∧ (convs ≠ [] → ∃ c ∈ convs, next_id convs = c.id + 1) := by
  intro convs
  cases convs with
  | nil =>
    refine ⟨fun _ => rfl, ?_, ?_⟩
    · intro c hc; simp at hc
    · intro h; exact absurd rfl h
  | cons c rest =>
    have hn : next_id (c :: rest)
        = (rest.map (fun e => e.id)).foldl max c.id + 1 := by
      show rest.foldl (fun m e => max m e.id) c.id + 1 = _
      rw [List.foldl_map]
    refine ⟨fun h => by simp at h, ?_, ?_⟩
    · intro e he
      rw [hn]
      rcases List.mem_cons.mp he with h | h
      · subst h
        have := foldlMax_init_le (rest.map (fun x => x.id)) e.id
        omega
      · have := foldlMax_mem_le (rest.map (fun x => x.id)) c.id e.id
          (List.mem_map.mpr ⟨e, h, rfl⟩)
        omega
    · intro _
      rcases foldlMax_eq_or_mem (rest.map (fun x => x.id)) c.id with h | h
      · refine ⟨c, List.mem_cons_self c rest, ?_⟩
        rw [hn, h]
      · rcases List.mem_map.mp h with ⟨e, he, hid⟩
        refine ⟨e, List.mem_cons_of_mem c he, ?_⟩
        rw [hn, hid]

/-- Concrete instantiation of `C4_next_id` on a two-entry registry. -/
theorem C4_next_id_witness :
    (∀ c ∈ [(⟨3, "s1", "p", "d", none, "t", none, "active"⟩ : ConvEntry),
            ⟨7, "s2", "p", "d", none, "t", none, "done"⟩],
        c.id < next_id [⟨3, "s1", "p", "d", none, "t", none, "active"⟩,
                        ⟨7, "s2", "p", "d", none, "t", none, "done"⟩])
    ∧ (∃ c ∈ [(⟨3, "s1", "p", "d", none, "t", none, "active"⟩ : ConvEntry),
              ⟨7, "s2", "p", "d", none, "t", none, "done"⟩],
        next_id [⟨3, "s1", "p", "d", none, "t", none, "active"⟩,
                 ⟨7, "s2", "p", "d", none, "t", none, "done"⟩] = c.id + 1) := by
  refine ⟨(C4_next_id _).2.1, (C4_next_id _).2.2 ?_⟩
  simp

/- ### Claim C5 -/

/-- C5: for every registry and every id matching no entry, `cmd_done` and
`cmd_remove` leave the registry unchanged, do not rewrite the file, print
a not-found message, and exit with a nonzero code. -/
theorem C5_done_remove_absent : ∀ (convs : List ConvEntry) (i : Int) (now : String),
    (∀ c ∈ convs, c.id ≠ i) →
    cmd_done convs i now = (convs, false, 1, .notFound i)
    ∧ cmd_remove convs i = (convs, false, 1, .notFound i) := by
  intro convs i now h
  constructor
  · rw [cmd_done, doneScan_none i now convs h]
  · rw [cmd_remove, removeScan_none i convs h]

/-- Concrete instantiation of `C5_done_remove_absent`: id 5 is absent from
a one-entry registry. -/
theorem C5_done_remove_absent_witness :
    cmd_done [⟨3, "s1", "p", "d", none, "t", none, "active"⟩] 5 "now"
      = ([⟨3, "s1", "p", "d", none, "t", none, "active"⟩], false, 1, .notFound 5)
    ∧ cmd_remove [⟨3, "s1", "p", "d", none, "t", none, "active"⟩] 5
      = ([⟨3, "s1", "p", "d", none, "t", none, "active"⟩], false, 1, .notFound 5) :=
  C5_done_remove_absent _ 5 "now" (by decide)

/- ### Claim C6 -/

/-- C6: the directory-to-folder-name encoding replaces exactly the
characters outside `[A-Za-z0-9-]` with a hyphen and leaves the others
unchanged, preserving length and position; `"/Users/a/b.c"` maps to
`"-Users-a-b-c"`. -/
theorem C6_cwd_encoding : ∀ s : String,
    (cwd_to_project_dir s).length = s.length
    ∧ (∀ i, i < s.data.length →
        (cwd_to_project_dir s).data.getD i 'x' =
          (if isProjectChar (s.data.getD i 'x') then s.data.getD i 'x' else '-'))
    ∧ (∀ i, i < s.data.length →
        (cwd_to_project_dir s).data.getD i 'x' = s.data.getD i 'x'
        ∨ (cwd_to_project_dir s).data.getD i 'x' = '-')
    ∧ cwd_to_project_dir "/Users/a/b.c" = "-Users-a-b-c" := by
  intro s
  refine ⟨?_, ?_, ?_, by decide⟩
  · show (s.data.map _).length = s.data.length
    simp
  · intro i h
    exact getD_map_of_lt s.data _ 'x' i h
  · intro i h
    show (s.data.map _).getD i 'x' = _ ∨ (s.data.map _).getD i 'x' = '-'
    rw [getD_map_of_lt s.data _ 'x' i h]
    by_cases hc : isProjectChar (s.data.getD i 'x')
    · left; rw [if_pos hc]
    · right; rw [if_neg hc]

/-- Concrete instantiation of `C6_cwd_encoding` at `"/a"`, position 0. -/
theorem C6_cwd_encoding_witness :
    (cwd_to_project_dir "/a").length = ("/a" : String).length
    ∧ (cwd_to_project_dir "/a").data.getD 0 'x' = '-' := by
  refine ⟨(C6_cwd_encoding "/a").1, ?_⟩
  have h := (C6_cwd_encoding "/a").2.1 0 (by decide)
  simpa using h

/- ### Claim C2 -/

/-- C2 counterexample: a registry holding a "done" entry for session "S"
followed by an "active" entry for "S" contains an active entry for the
saved session id, yet `cmd_save` rewrites the registry (it reactivates
the first matching entry) instead of printing "already saved" without
mutation. -/
theorem C2_counterexample :
    ((⟨2, "S", "p", "desc", none, "t1", none, "active"⟩ : ConvEntry)
        ∈ [(⟨1, "S", "p", "old", none, "t0", none, "done"⟩ : ConvEntry),
           ⟨2, "S", "p", "desc", none, "t1", none, "active"⟩])
    ∧ (cmd_save [⟨1, "S", "p", "old", none, "t0", none, "done"⟩,
                 ⟨2, "S", "p", "desc", none, "t1", none, "active"⟩]
         "S" "p" none none "t2").wrote = true
    ∧ (cmd_save [⟨1, "S", "p", "old", none, "t0", none, "done"⟩,
                 ⟨2, "S", "p", "desc", none, "t1", none, "active"⟩]
         "S" "p" none none "t2").conversations
        ≠ [⟨1, "S", "p", "old", none, "t0", none, "done"⟩,
           ⟨2, "S", "p", "desc", none, "t1", none, "active"⟩] := by
  refine ⟨by decide, by decide, by decide⟩

/-- C2 (amended): whenever the first entry whose sessionId matches the
saved session id has status "active", `cmd_save` prints the
already-saved message, exits 0, does not rewrite the registry file and
leaves every entry unchanged. -/
theorem C2_already_saved_no_mutation :
    ∀ (pre suf : List ConvEntry) (c : ConvEntry) (sid proj : String)
      (descr fp : Option String) (now : String),
    (∀ e ∈ pre, e.sessionId ≠ sid) → c.sessionId = sid → c.status = "active" →
    cmd_save (pre ++ c :: suf) sid proj descr fp now
      = ⟨pre ++ c :: suf, false, 0, .alreadySaved c.id c.description⟩ := by
  intro pre suf c sid proj descr fp now hpre hsid hstat
  have hscan : saveScan sid descr now (c :: suf)
      = some (c :: suf, .alreadySaved c.id c.description, false) := by
    simp only [saveScan, beq_iff_eq, if_pos hsid, if_pos hstat]
  rw [cmd_save, saveScan_append sid descr now pre (c :: suf) hpre, hscan]
  rfl

/-- Concrete instantiation of `C2_already_saved_no_mutation` on a
one-entry registry whose entry is active. -/
theorem C2_already_saved_no_mutation_witness :
    cmd_save [⟨2, "S", "p", "desc", none, "t1", none, "active"⟩] "S" "p" none none "t2"
      = ⟨[⟨2, "S", "p", "desc", none, "t1", none, "active"⟩], false, 0,
         .alreadySaved 2 "desc"⟩ :=
  C2_already_saved_no_mutation [] [] _ "S" "p" none none "t2" (by simp) rfl rfl

/- ### Claim C3 -/

/-- C3 counterexample: a registry holding an "active" entry for session
"S" followed by a "done" entry for "S" contains a done entry for the
saved session id, yet `cmd_save` leaves that done entry untouched (it
short-circuits on the first matching entry) and the resulting registry
still holds two entries for "S", not exactly one. -/
theorem C3_counterexample :
    ((⟨2, "S", "p", "old", none, "t0", none, "done"⟩ : ConvEntry)
        ∈ [(⟨1, "S", "p", "desc", none, "t1", none, "active"⟩ : ConvEntry),
           ⟨2, "S", "p", "old", none, "t0", none, "done"⟩])
    ∧ (cmd_save [⟨1, "S", "p", "desc", none, "t1", none, "active"⟩,
                 ⟨2, "S", "p", "old", none, "t0", none, "done"⟩]
         "S" "p" none none "t2").conversations
        = [⟨1, "S", "p", "desc", none, "t1", none, "active"⟩,
           ⟨2, "S", "p", "old", none, "t0", none, "done"⟩]
    ∧ ((cmd_save [⟨1, "S", "p", "desc", none, "t1", none, "active"⟩,
                  ⟨2, "S", "p", "old", none, "t0", none, "done"⟩]
          "S" "p" none none "t2").conversations.countP
            (fun e => e.sessionId == "S")) = 2 := by
  refine ⟨by decide, by decide, by decide⟩

/-- C3 (amended): when the registry contains exactly one entry with the
saved session id and its status is "done" or "removed", `cmd_save`
reactivates that entry in place: status reset to "active", id unchanged,
no entry appended, and afterwards exactly one entry carries the session
id. -/
theorem C3_reactivate_in_place :
    ∀ (pre suf : List ConvEntry) (c : ConvEntry) (sid proj : String)
      (descr fp : Option String) (now : String),
    (∀ e ∈ pre, e.sessionId ≠ sid) → (∀ e ∈ suf, e.sessionId ≠ sid) →
    c.sessionId = sid → (c.status = "done" ∨ c.status = "removed") →
    cmd_save (pre ++ c :: suf) sid proj descr fp now
      = ⟨pre ++ reactivateEntry c descr now :: suf, true, 0,
          .reactivated c.id (reactivateEntry c descr now).description⟩
    ∧ (pre ++ reactivateEntry c descr now :: suf).length = (pre ++ c :: suf).length
    ∧ (reactivateEntry c descr now).id = c.id
    ∧ (reactivateEntry c descr now).status = "active"
    ∧ ((pre ++ reactivateEntry c descr now :: suf).countP
          (fun e => e.sessionId == sid)) = 1 := by
  intro pre suf c sid proj descr fp now hpre hsuf hsid hstat
  have hact : c.status ≠ "active" := by
    rcases hstat with h | h <;> rw [h] <;> decide
  refine ⟨?_, by simp, rfl, rfl, ?_⟩
  · have hscan : saveScan sid descr now (c :: suf)
        = some (reactivateEntry c descr now :: suf,
            .reactivated (reactivateEntry c descr now).id
              (reactivateEntry c descr now).description, true) := by
      simp only [saveScan, beq_iff_eq, if_pos hsid, if_neg hact]
    rw [cmd_save, saveScan_append sid descr now pre (c :: suf) hpre, hscan]
    rfl
  · rw [List.countP_append, List.countP_cons]
    have h1 : pre.countP (fun e => e.sessionId == sid) = 0 := by
      rw [List.countP_eq_zero]
      intro e he
      simpa using hpre e he
    have h2 : suf.countP (fun e => e.sessionId == sid) = 0 := by
      rw [List.countP_eq_zero]
      intro e he
      simpa using hsuf e he
    simp [h1, h2, reactivateEntry, hsid]

/-- Concrete instantiation of `C3_reactivate_in_place` on a one-entry
registry whose entry is done. -/
theorem C3_reactivate_in_place_witness :
    cmd_save [⟨4, "S", "p", "old", none, "t0", none, "done"⟩] "S" "p" none none "t2"
      = ⟨[⟨4, "S", "p", "old", none, "t2", none, "active"⟩], true, 0,
         .reactivated 4 "old"⟩
    ∧ ([(⟨4, "S", "p", "old", none, "t2", none, "active"⟩ : ConvEntry)].countP
          (fun e => e.sessionId == "S")) = 1 := by
  have h := C3_reactivate_in_place [] [] ⟨4, "S", "p", "old", none, "t0", none, "done"⟩
    "S" "p" none none "t2" (by simp) (by simp) rfl (Or.inl rfl)
  refine ⟨?_, ?_⟩
  · have h1 := h.1
    simpa [reactivateEntry] using h1
  · have h2 := h.2.2.2.2
    simp only [List.nil_append] at h2
    exact h2

/- ### Claim C9 -/

/-- C9: when no registry entry carries the saved session id, `cmd_save`
appends exactly one new entry at the end of the conversations list and
leaves every pre-existing entry unchanged. -/
theorem C9_save_appends :
    ∀ (convs : List ConvEntry) (sid proj : String) (descr fp : Option String)
      (now : String),
    (∀ e ∈ convs, e.sessionId ≠ sid) →
    cmd_save convs sid proj descr fp now
      = ⟨convs ++ [⟨next_id convs, sid, proj, pyOr descr fp "No description",
                    fp, now, none, "active"⟩],
          true, 0, .savedNew (next_id convs) (pyOr descr fp "No description")⟩ := by
  intro convs sid proj descr fp now h
  rw [cmd_save, saveScan_none sid descr now convs h]

/-- Concrete instantiation of `C9_save_appends`: saving a fresh session id
into a one-entry registry appends a single entry with id 8. -/
theorem C9_save_appends_witness :
    cmd_save [⟨7, "S1", "p", "d", none, "t0", none, "active"⟩]
        "S2" "/q" none (some "hi") "t3"
      = ⟨[⟨7, "S1", "p", "d", none, "t0", none, "active"⟩,
          ⟨8, "S2", "/q", "hi", some "hi", "t3", none, "active"⟩],
          true, 0, .savedNew 8 "hi"⟩ := by
  have h := C9_save_appends [⟨7, "S1", "p", "d", none, "t0", none, "active"⟩]
    "S2" "/q" none (some "hi") "t3" (by decide)
  simpa using h

/- ### Claim C7 -/

/-- C7 counterexample: with target directory `""`, a single parseable
history line that has no `project` field at all (so no line's project
field equals the target) still has its sessionId returned, because the
code compares `entry.get("project", "")` — a missing field defaults to
the empty string and matches. -/
theorem C7_counterexample :
    find_session_id_for_cwd "" (some [some (.jobj [("sessionId", .jstr "A")])])
      = .ok (some (.jstr "A"))
    ∧ olookup (.jobj [("sessionId", .jstr "A")]) "project" = none := by
  constructor <;> rfl

/-- C7 (amended): the history correlator returns the sessionId recorded
on the last parseable line whose project field — with a missing field
defaulting to the empty string, as the code's `get("project", "")`
does — equals the target directory, and none when no line matches or
the file is absent; unparseable lines are skipped.  (Lines that parse
to JSON objects; a parseable non-object line raises an uncaught
AttributeError.) -/
theorem C7_last_match : ∀ (cwd : String) (lines : List (Option JVal)),
    ((lines.filterMap id).all isObjB = true) →
    find_session_id_for_cwd cwd (some lines)
      = .ok ((historyMatches cwd lines).getLast?.bind (fun v => olookup v "sessionId"))
    ∧ find_session_id_for_cwd cwd none = .ok none := by
  intro cwd lines h
  constructor
  · rw [find_session_id_for_cwd, findSessionGo_spec cwd lines none h]
    cases historyMatches cwd lines with
    | nil => rfl
    | cons x xs =>
      cases hl : (x :: xs).getLast? with
      | none => simp at hl
      | some m => simp [hl]
  · rfl

/-- Concrete instantiation of `C7_last_match`: among three parseable
lines the last one whose project equals "/p" carries sessionId "Z". -/
theorem C7_last_match_witness :
    find_session_id_for_cwd "/p"
        (some [none,
               some (.jobj [("project", .jstr "/p"), ("sessionId", .jstr "X")]),
               some (.jobj [("project", .jstr "/q"), ("sessionId", .jstr "Y")]),
               some (.jobj [("project", .jstr "/p"), ("sessionId", .jstr "Z")])])
      = .ok (some (.jstr "Z")) := by
  have h := (C7_last_match "/p"
    [none,
     some (.jobj [("project", .jstr "/p"), ("sessionId", .jstr "X")]),
     some (.jobj [("project", .jstr "/q"), ("sessionId", .jstr "Y")]),
     some (.jobj [("project", .jstr "/p"), ("sessionId", .jstr "Z")])]
    rfl).1
  rw [h]
  rfl

lemma stripSRGo_fuel_eq : ∀ (f₁ : Nat) (l : List Char) (f₂ : Nat),
    l.length ≤ f₁ → l.length ≤ f₂ → stripSRGo f₁ l = stripSRGo f₂ l := by
  intro f₁
  induction f₁ with
  | zero =>
    intro l f₂ h1 _
    have hl : l = [] := List.length_eq_zero.mp (Nat.le_zero.mp h1)
    subst hl
    cases f₂ with
    | zero => rfl
    | succ b => rfl
  | succ a ih =>
    intro l f₂ h1 h2
    cases f₂ with
    | zero =>
      have hl : l = [] := List.length_eq_zero.mp (Nat.le_zero.mp h2)
      subst hl
      rfl
    | succ b =>
      cases hE : firstOcc? openTag l with
      | none => simp only [stripSRGo, hE]
      | some i =>
        cases hE2 : firstOcc? closeTag (l.drop (i + openTag.length)) with
        | none => simp only [stripSRGo, hE, hE2]
        | some j =>
          simp only [stripSRGo, hE, hE2]
          congr 1
          have hlen1 : openTag.length ≤ (l.drop i).length :=
            leadsWith_length _ _ (firstOcc_some_leads _ _ _ hE)
          have hO : openTag.length = 17 := rfl
          rw [List.length_drop] at hlen1
          have hXlen : ((l.drop (i + openTag.length)).drop (j + closeTag.length)).length
              = l.length - (i + openTag.length) - (j + closeTag.length) := by
            simp only [List.length_drop]
          apply ih
          · omega
          · omega

lemma stripSRGo_region : ∀ (f : Nat) (pre mid post : List Char),
    (pre ++ (openTag ++ (mid ++ (closeTag ++ post)))).length ≤ f →
    firstOcc? openTag pre = none →
    firstOcc? closeTag mid = none →
    stripSRGo f (pre ++ (openTag ++ (mid ++ (closeTag ++ post))))
      = pre ++ stripSRGo post.length post := by
  intro f pre mid post hf hpre hmid
  have hOlen : openTag.length = 17 := rfl
  have hClen : closeTag.length = 18 := rfl
  have hO : firstOcc? openTag (pre ++ (openTag ++ (mid ++ (closeTag ++ post))))
      = some pre.length :=
    firstOcc_append_self '<' "system-reminder>".data pre (mid ++ (closeTag ++ post))
      hpre (by decide)
  have hdrop1 : (pre ++ (openTag ++ (mid ++ (closeTag ++ post)))).drop
      (pre.length + openTag.length) = mid ++ (closeTag ++ post) := by
    rw [show pre ++ (openTag ++ (mid ++ (closeTag ++ post)))
        = (pre ++ openTag) ++ (mid ++ (closeTag ++ post)) from
      (List.append_assoc _ _ _).symm]
    rw [show pre.length + openTag.length = (pre ++ openTag).length from
      (List.length_append _ _).symm]
    exact List.drop_left _ _
  have hC : firstOcc? closeTag (mid ++ (closeTag ++ post)) = some mid.length :=
    firstOcc_append_self '<' "/system-reminder>".data mid post hmid (by decide)
  have hdrop2 : (mid ++ (closeTag ++ post)).drop (mid.length + closeTag.length)
      = post := by
    rw [show mid ++ (closeTag ++ post) = (mid ++ closeTag) ++ post from
      (List.append_assoc _ _ _).symm]
    rw [show mid.length + closeTag.length = (mid ++ closeTag).length from
      (List.length_append _ _).symm]
    exact List.drop_left _ _
  have htake : (pre ++ (openTag ++ (mid ++ (closeTag ++ post)))).take pre.length
      = pre := by
    rw [show pre ++ (openTag ++ (mid ++ (closeTag ++ post)))
        = pre ++ (openTag ++ (mid ++ (closeTag ++ post))) from rfl]
    exact List.take_left _ _
  have hlen : (pre ++ (openTag ++ (mid ++ (closeTag ++ post)))).length
      = pre.length + 17 + mid.length + 18 + post.length := by
    simp only [List.length_append, hOlen, hClen]
    omega
  cases f with
  | zero =>
    exfalso
    rw [hlen] at hf
    omega
  | succ g =>
    simp only [stripSRGo, hO, hdrop1, hC, hdrop2, htake]
    congr 1
    apply stripSRGo_fuel_eq
    · rw [hlen] at hf
      omega
    · exact le_refl _

/- ### Claim C8 -/

/-- C8: the text-extraction helper (1) removes every
`<system-reminder>...</system-reminder>` region regardless of what the
region contains — stated as the leftmost-region rewrite equation of the
substitution it applies, for an arbitrary region body `mid` not
containing the close tag (and a prefix with no open tag, so the shown
region is the leftmost; iterating the equation handles the following
regions in `post`); (2) returns none for a string-content message whose
stripped text begins with `"<local-command"` or `"<command-"`; and (3)
returns none for a message whose text is empty after the stripping. -/
theorem C8_extract_user_text :
    (∀ pre mid post : String,
      firstOcc? openTag pre.data = none →
      firstOcc? closeTag mid.data = none →
      stripSystemReminders (pre ++ "<system-reminder>" ++ mid ++ "</system-reminder>" ++ post)
        = pre ++ stripSystemReminders post)
    ∧ (∀ s : String,
        (pyStartsWith (pyStrip s) "<local-command" = true
          ∨ pyStartsWith (pyStrip s) "<command-" = true) →
        extract_user_text (.jobj [("message", .jobj [("content", .jstr s)])]) = .ok none)
    ∧ (∀ s : String,
        pyStrip (stripSystemReminders (pyStrip s)) = "" →
        extract_user_text (.jobj [("message", .jobj [("content", .jstr s)])]) = .ok none) := by
  refine ⟨?_, ?_, ?_⟩
  · intro pre mid post hpre hmid
    have hdata : (pre ++ "<system-reminder>" ++ mid ++ "</system-reminder>" ++ post).data
        = pre.data ++ (openTag ++ (mid.data ++ (closeTag ++ post.data))) := by
      simp only [String.data_append, List.append_assoc]
      rfl
    have key : stripSRGo
          (pre ++ "<system-reminder>" ++ mid ++ "</system-reminder>" ++ post).data.length
          (pre ++ "<system-reminder>" ++ mid ++ "</system-reminder>" ++ post).data
        = pre.data ++ stripSRGo post.data.length post.data := by
      rw [hdata]
      exact stripSRGo_region _ pre.data mid.data post.data (le_refl _) hpre hmid
    exact congrArg String.mk key
  · intro s hmk
    show (if pyStrip s == "" then Except.ok none
      else if pyStartsWith (pyStrip s) "<local-command" then Except.ok none
      else if pyStartsWith (pyStrip s) "<command-" then Except.ok none
      else Except.ok (if pyStrip (stripSystemReminders (pyStrip s)) == "" then none
        else some (pyStrip (stripSystemReminders (pyStrip s)))))
      = Except.ok none
    by_cases h1 : pyStrip s == ""
    · rw [if_pos h1]
    · rw [if_neg h1]
      by_cases h2 : pyStartsWith (pyStrip s) "<local-command" = true
      · rw [if_pos h2]
      · rw [if_neg h2]
        rcases hmk with hm | hm
        · exact absurd hm h2
        · rw [if_pos hm]
  · intro s hempty
    show (if pyStrip s == "" then Except.ok none
      else if pyStartsWith (pyStrip s) "<local-command" then Except.ok none
      else if pyStartsWith (pyStrip s) "<command-" then Except.ok none
      else Except.ok (if pyStrip (stripSystemReminders (pyStrip s)) == "" then none
        else some (pyStrip (stripSystemReminders (pyStrip s)))))
      = Except.ok none
    by_cases h1 : pyStrip s == ""
    · rw [if_pos h1]
    · rw [if_neg h1]
      by_cases h2 : pyStartsWith (pyStrip s) "<local-command" = true
      · rw [if_pos h2]
      · rw [if_neg h2]
        by_cases h3 : pyStartsWith (pyStrip s) "<command-" = true
        · rw [if_pos h3]
        · rw [if_neg h3, if_pos (by rw [hempty]; rfl)]

/-- Concrete instantiation of `C8_extract_user_text`: a region with
arbitrary content between the tags is removed; a command-marker message
and an all-reminder message extract to none. -/
theorem C8_extract_user_text_witness :
    stripSystemReminders ("ab" ++ "<system-reminder>" ++ "X /<>Y" ++ "</system-reminder>" ++ "cd")
      = "ab" ++ stripSystemReminders "cd"
    ∧ extract_user_text (.jobj [("message", .jobj [("content", .jstr "<command-run foo")])])
      = .ok none
    ∧ extract_user_text
        (.jobj [("message", .jobj [("content",
          .jstr " <system-reminder>note</system-reminder> ")])])
      = .ok none := by
  refine ⟨C8_extract_user_text.1 "ab" "X /<>Y" "cd" (by decide) (by decide),
    C8_extract_user_text.2.1 "<command-run foo" (Or.inr (by decide)),
    C8_extract_user_text.2.2 " <system-reminder>note</system-reminder> " (by decide)⟩

/- ### Claim C10 -/

/-- The loop invariant for C10: the last recorded tool name is the last
element of the recent-tools list whenever that list is nonempty. -/
def ToolInv (st : TailState) : Prop :=
  st.recentTools ≠ [] → st.lastTool = st.recentTools.getLast?

lemma toolInv_blockStep (st : TailState) (c : JVal) (h : ToolInv st) :
    (∀ st2, blockStep st c = .cont st2 → ToolInv st2)
    ∧ (∀ st2, blockStep st c = .abortLine st2 → ToolInv st2) := by
  constructor
  · intro st2 hb
    rw [blockStep] at hb
    by_cases h1 : (isObjB c && pyEqStr (olookupD c "type" .jnull) "text") = true
    · rw [if_pos h1] at hb
      cases hx : olookup c "text" with
      | none => rw [hx] at hb; exact absurd hb (by simp)
      | some v =>
        rw [hx] at hb
        cases v with
        | jstr s =>
          simp only [BlockRes.cont.injEq] at hb
          subst hb
          by_cases h2 : pyStrip s == ""
          · rw [if_pos h2]; exact h
          · rw [if_neg h2]
            intro hne
            exact h hne
        | jnull => exact absurd hb (by simp)
        | jbool b => exact absurd hb (by simp)
        | jnum q => exact absurd hb (by simp)
        | jarr l => exact absurd hb (by simp)
        | jobj fs => exact absurd hb (by simp)
    · rw [if_neg h1] at hb
      by_cases h2 : (isObjB c && pyEqStr (olookupD c "type" .jnull) "tool_use") = true
      · rw [if_pos h2] at hb
        simp only [BlockRes.cont.injEq] at hb
        subst hb
        intro _
        show some (olookupD c "name" (.jstr ""))
          = (st.recentTools ++ [olookupD c "name" (.jstr "")]).getLast?
        rw [List.getLast?_concat]
      · rw [if_neg h2] at hb
        simp only [BlockRes.cont.injEq] at hb
        subst hb
        exact h
  · intro st2 hb
    rw [blockStep] at hb
    by_cases h1 : (isObjB c && pyEqStr (olookupD c "type" .jnull) "text") = true
    · rw [if_pos h1] at hb
      cases hx : olookup c "text" with
      | none =>
        rw [hx] at hb
        simp only [BlockRes.abortLine.injEq] at hb
        subst hb
        exact h
      | some v =>
        rw [hx] at hb
        cases v with
        | jstr s => exact absurd hb (by simp)
        | jnull => exact absurd hb (by simp)
        | jbool b => exact absurd hb (by simp)
        | jnum q => exact absurd hb (by simp)
        | jarr l => exact absurd hb (by simp)
        | jobj fs => exact absurd hb (by simp)
    · rw [if_neg h1] at hb
      by_cases h2 : (isObjB c && pyEqStr (olookupD c "type" .jnull) "tool_use") = true
      · rw [if_pos h2] at hb; exact absurd hb (by simp)
      · rw [if_neg h2] at hb; exact absurd hb (by simp)

lemma toolInv_blocksLoop : ∀ (blocks : List JVal) (st st2 : TailState),
    ToolInv st → blocksLoop st blocks = .ok st2 → ToolInv st2 := by
  intro blocks
  induction blocks with
  | nil =>
    intro st st2 h hb
    simp only [blocksLoop, Except.ok.injEq] at hb
    subst hb
    exact h
  | cons c rest ih =>
    intro st st2 h hb
    rw [blocksLoop] at hb
    cases hstep : blockStep st c with
    | cont s =>
      rw [hstep] at hb
      exact ih s st2 ((toolInv_blockStep st c h).1 s hstep) hb
    | abortLine s =>
      rw [hstep] at hb
      simp only [Except.ok.injEq] at hb
      subst hb
      exact (toolInv_blockStep st c h).2 s hstep
    | fatal =>
      rw [hstep] at hb
      exact absurd hb (by simp)

lemma toolInv_tailLine (st st2 : TailState) (line : Option JVal)
    (h : ToolInv st) (hl : tailLine st line = .ok st2) : ToolInv st2 := by
  cases line with
  | none =>
    simp only [tailLine, Except.ok.injEq] at hl
    subst hl
    exact h
  | some d =>
    cases d with
    | jobj fs =>
      rw [tailLine] at hl
      by_cases h1 : pyEqStr (olookupD (.jobj fs) "type" (.jstr "")) "user" = true
      · rw [if_pos h1] at hl
        cases hx : extract_user_text (.jobj fs) with
        | error e =>
          rw [hx] at hl
          cases e with
          | attrError => exact absurd hl (by simp)
          | keyError =>
            simp only [Except.ok.injEq] at hl
            subst hl
            exact h
          | valueError =>
            simp only [Except.ok.injEq] at hl
            subst hl
            exact h
        | ok r =>
          rw [hx] at hl
          cases r with
          | none =>
            simp only [Except.ok.injEq] at hl
            subst hl
            exact h
          | some text =>
            simp only [Except.ok.injEq] at hl
            subst hl
            by_cases h2 : text == ""
            · rw [if_pos h2]; exact h
            · rw [if_neg h2]; intro hne; exact h hne
      · rw [if_neg h1] at hl
        by_cases h2 : pyEqStr (olookupD (.jobj fs) "type" (.jstr "")) "assistant" = true
        · rw [if_pos h2] at hl
          cases hc : (match olookupD (.jobj fs) "message" (.jobj []) with
              | .jobj fs2 => olookupD (.jobj fs2) "content" (.jarr [])
              | _ => .jarr []) with
          | jarr blocks =>
            rw [hc] at hl
            exact toolInv_blocksLoop blocks st st2 h hl
          | jnull => rw [hc] at hl; simp only [Except.ok.injEq] at hl; subst hl; exact h
          | jbool b => rw [hc] at hl; simp only [Except.ok.injEq] at hl; subst hl; exact h
          | jnum q => rw [hc] at hl; simp only [Except.ok.injEq] at hl; subst hl; exact h
          | jstr s => rw [hc] at hl; simp only [Except.ok.injEq] at hl; subst hl; exact h
          | jobj fs2 => rw [hc] at hl; simp only [Except.ok.injEq] at hl; subst hl; exact h
        · rw [if_neg h2] at hl
          simp only [Except.ok.injEq] at hl
          subst hl
          exact h
    | jnull => exact absurd hl (by simp [tailLine])
    | jbool b => exact absurd hl (by simp [tailLine])
    | jnum q => exact absurd hl (by simp [tailLine])
    | jstr s => exact absurd hl (by simp [tailLine])
    | jarr l => exact absurd hl (by simp [tailLine])

lemma toolInv_tailLoop : ∀ (lines : List (Option JVal)) (st st2 : TailState),
    ToolInv st → tailLoop st lines = .ok st2 → ToolInv st2 := by
  intro lines
  induction lines with
  | nil =>
    intro st st2 h hl
    simp only [tailLoop, Except.ok.injEq] at hl
    subst hl
    exact h
  | cons l rest ih =>
    intro st st2 h hl
    rw [tailLoop] at hl
    cases hline : tailLine st l with
    | ok s =>
      rw [hline] at hl
      exact ih s st2 (toolInv_tailLine st s l h hline) hl
    | error e =>
      rw [hline] at hl
      exact absurd hl (by simp)

lemma getLast?_drop_of_ne_nil (l : List JVal) :
    ∀ k, l.drop k ≠ [] → (l.drop k).getLast? = l.getLast? := by
  induction l with
  | nil => intro k h; simp at h
  | cons c t ih =>
    intro k h
    cases k with
    | zero => rfl
    | succ m =>
      have hd : (c :: t).drop (m + 1) = t.drop m := rfl
      rw [hd] at h ⊢
      cases t with
      | nil => simp at h
      | cons x xs =>
        rw [ih m h, List.getLast?_cons_cons]

/-- C10: for every readable transcript, whenever
`extract_session_context` returns a context (rather than raising), that
context has at most 5 recent tools, and if the recent-tools list is
nonempty then `lastTool` is its final element. -/
theorem C10_context_invariant :
    ∀ (lines : List (Option JVal)) (maxTail : Nat) (ctx : SessionContext),
    extract_session_context lines maxTail = .ok ctx →
    ctx.recentTools.length ≤ 5
    ∧ (ctx.recentTools ≠ [] → ctx.lastTool = ctx.recentTools.getLast?) := by
  intro lines maxTail ctx hctx
  rw [extract_session_context] at hctx
  cases hfu : firstUserLoop none (lines.take 30) with
  | error e => rw [hfu] at hctx; exact absurd hctx (by simp)
  | ok fu =>
    rw [hfu] at hctx
    cases htl : tailLoop ⟨none, none, [], none⟩
        (lines.drop (lines.length - maxTail)) with
    | error e => rw [htl] at hctx; exact absurd hctx (by simp)
    | ok st =>
      rw [htl] at hctx
      simp only [Except.ok.injEq] at hctx
      subst hctx
      have hinv : ToolInv st := by
        refine toolInv_tailLoop _ _ _ ?_ htl
        intro hne
        exact absurd rfl hne
      constructor
      · show (st.recentTools.drop (st.recentTools.length - 5)).length ≤ 5
        rw [List.length_drop]
        omega
      · intro hne
        show st.lastTool = (st.recentTools.drop (st.recentTools.length - 5)).getLast?
        have hne2 : st.recentTools.drop (st.recentTools.length - 5) ≠ [] := hne
        rw [getLast?_drop_of_ne_nil st.recentTools (st.recentTools.length - 5) hne2]
        refine hinv ?_
        intro hnil
        rw [hnil] at hne2
        simp at hne2

/-- Concrete instantiation of `C10_context_invariant`: a transcript with
one assistant line invoking two tools yields recentTools
`[Bash, Edit]` and lastTool `Edit`. -/
theorem C10_context_invariant_witness :
    ([JVal.jstr "Bash", JVal.jstr "Edit"] : List JVal).length ≤ 5
    ∧ (([JVal.jstr "Bash", JVal.jstr "Edit"] : List JVal) ≠ [] →
        (some (JVal.jstr "Edit") : Option JVal)
          = ([JVal.jstr "Bash", JVal.jstr "Edit"] : List JVal).getLast?) := by
  have h := C10_context_invariant
    [some (.jobj [("type", .jstr "assistant"),
       ("message", .jobj [("content", .jarr
         [.jobj [("type", .jstr "tool_use"), ("name", .jstr "Bash")],
          .jobj [("type", .jstr "tool_use"), ("name", .jstr "Edit")]])])])]
    80
    ⟨none, none, none, [.jstr "Bash", .jstr "Edit"], some (.jstr "Edit")⟩
    rfl
  exact h

/- ### Claim C1 -/

/-- C1 counterexample: a `ps aux` row for a foreground interactive
`claude` process with CPU exactly `1.0` appears in the candidate pid
list, although its CPU usage is not strictly greater than the 1.0
threshold — the code drops only rows with `cpu_val < 1.0`. -/
theorem C1_counterexample :
    claude_pids_of_ps "alice 4321 1.0 0.3 100 200 s003 S+ 9:15AM 0:02.33 claude"
      = .ok [(4321, 1, "9:15AM")]
    ∧ ¬ ((1 : ℚ) > 1) := by
  constructor
  · rfl
  · norm_num

/-- C1 (amended): a parsed `ps` row whose command matches the claude
binary, whose tty starts with `s0`, and whose state flags contain `+`
contributes its pid to the candidate list if and only if its CPU value
is at least 1.0 (not strictly above it); a row whose CPU field does not
parse is treated as 0.0 and therefore dropped. -/
theorem C1_filter_threshold :
    ∀ (line : String) (pid : Int),
    11 ≤ (pySplit line).length →
    (pyEndsWith ((pySplit line).getD 10 "") "/claude" = true
      ∨ (pySplit line).getD 10 "" = "claude") →
    pyStartsWith ((pySplit line).getD 6 "") "s0" = true →
    ((pySplit line).getD 7 "").data.contains '+' = true →
    pyInt? ((pySplit line).getD 1 "") = some pid →
    get_claude_pids [line]
      = .ok (if (1 : ℚ) ≤ (pythonFloat? ((pySplit line).getD 2 "")).getD 0 then
          [(pid, (pythonFloat? ((pySplit line).getD 2 "")).getD 0,
            (pySplit line).getD 8 "")]
        else []) := by
  intro line pid hlen hcomm htty hstat hpid
  have h11 : ¬ ((pySplit line).length < 11) := by omega
  have hcommb : (pyEndsWith ((pySplit line).getD 10 "") "/claude"
      || ((pySplit line).getD 10 "") == "claude") = true := by
    rcases hcomm with h | h
    · rw [h, Bool.true_or]
    · rw [h]
      simp only [beq_self_eq_true, Bool.or_true]
  have httyb : (pyStartsWith ((pySplit line).getD 6 "") "s0"
      && ((pySplit line).getD 7 "").data.contains '+') = true := by
    rw [htty, hstat]
    rfl
  by_cases hcpu : (pythonFloat? ((pySplit line).getD 2 "")).getD 0 < (1 : ℚ)
  · have hc : psLineCandidate line = none := by
      rw [psLineCandidate, if_neg h11, if_pos hcommb, if_pos httyb, if_pos hcpu]
    have hnle : ¬ ((1 : ℚ) ≤ (pythonFloat? ((pySplit line).getD 2 "")).getD 0) :=
      not_le.mpr hcpu
    simp only [get_claude_pids, hc, if_neg hnle]
  · have hle : (1 : ℚ) ≤ (pythonFloat? ((pySplit line).getD 2 "")).getD 0 :=
      not_lt.mp hcpu
    have hc : psLineCandidate line
        = some ((pySplit line).getD 1 "",
            (pythonFloat? ((pySplit line).getD 2 "")).getD 0,
            (pySplit line).getD 8 "") := by
      rw [psLineCandidate, if_neg h11, if_pos hcommb, if_pos httyb, if_neg hcpu]
    simp only [get_claude_pids, hc, hpid, if_pos hle]

/-- Concrete instantiation of `C1_filter_threshold`: a foreground
`/usr/local/bin/claude` row with CPU 2.5 yields pid 77. -/
theorem C1_filter_threshold_witness :
    get_claude_pids ["bob 77 2.5 0.3 1 2 s001 R+ 8:00AM 0:01.00 /usr/local/bin/claude"]
      = .ok [(77, mkRat 5 2, "8:00AM")] := by
  have h := C1_filter_threshold
    "bob 77 2.5 0.3 1 2 s001 R+ 8:00AM 0:01.00 /usr/local/bin/claude" 77
    (by decide) (Or.inl (by decide)) (by decide) (by decide) (by decide)
  rw [h]
  rfl
